import Mathlib

/-!
Verification of the Adaptive-Epidemic-Dynamics repository.

Shallow embedding of `src/adaptive_control.py`, `src/sir_model.py` and
`src/simulation.py` over exact rational arithmetic (`ℚ` stands in for
Python floats; all constants in the claims are decimal literals, read as
exact rationals).  Stateful Python objects become Lean structures with
explicit state passing: a call on a mutating policy returns the new
policy state together with the returned rate.
-/

/-- SIR state vector `(S, I, R)` (fractions of the population). -/
structure SIR where
  S : ℚ
  I : ℚ
  R : ℚ
deriving DecidableEq, Repr

/-- Embeds `np.clip(x, lo, hi) = min(hi, max(lo, x))` (the lower bound is applied
first, then the upper bound). -/
def npClip (x lo hi : ℚ) : ℚ := min hi (max lo x)

/-- Class `StaticBeta` from `src/adaptive_control.py`: a constant transmission
rate. -/
structure StaticBeta where
  beta_0 : ℚ
deriving DecidableEq, Repr

/-- Method `StaticBeta.__call__`: return `beta_0` regardless of `t` and `I`. -/
def StaticBeta.call (p : StaticBeta) (_t _I : ℚ) : ℚ := p.beta_0

/-- Class `NonStationaryBeta` from `src/adaptive_control.py`: scheduled
(time-triggered) transmission rate.  The fields `beta_intervention` and
`beta_rebound` are the values precomputed in `__init__`. -/
structure NonStationaryBeta where
  beta_0 : ℚ
  intervention_time : ℚ
  intervention_reduction : ℚ
  rebound_time : Option ℚ
  rebound_factor : ℚ
  beta_intervention : ℚ
  beta_rebound : ℚ
deriving DecidableEq, Repr

/-- Constructor `NonStationaryBeta.__init__`: store the parameters and precompute the
phase rates (`beta_intervention = beta_0 * (1 - intervention_reduction)`;
the rebound rate is a partial recovery towards `beta_0` when a rebound
time is given, otherwise it equals the intervention rate). -/
def NonStationaryBeta.make (beta_0 intervention_time intervention_reduction : ℚ)
    (rebound_time : Option ℚ) (rebound_factor : ℚ) : NonStationaryBeta :=
  let bi := beta_0 * (1 - intervention_reduction)
  let br := match rebound_time with
    | some _ => bi + (beta_0 - bi) * rebound_factor
    | none => bi
  ⟨beta_0, intervention_time, intervention_reduction, rebound_time, rebound_factor, bi, br⟩

/-- Method `NonStationaryBeta.__call__`: piecewise-constant rate; `t <
intervention_time` gives `beta_0`, then the intervention rate until the
(optional) rebound time, then the rebound rate. -/
def NonStationaryBeta.call (p : NonStationaryBeta) (t _I : ℚ) : ℚ :=
  if t < p.intervention_time then p.beta_0
  else
    match p.rebound_time with
    | none => p.beta_intervention
    | some rt => if t < rt then p.beta_intervention else p.beta_rebound

/-- Class `AdaptiveBeta` from `src/adaptive_control.py`: feedback-controlled
transmission rate with mutable `current_beta`. -/
structure AdaptiveBeta where
  beta_0 : ℚ
  upper_threshold : ℚ
  lower_threshold : ℚ
  reduction_factor : ℚ
  increase_factor : ℚ
  beta_min : ℚ
  beta_max : ℚ
  current_beta : ℚ
deriving DecidableEq, Repr

/-- Constructor `AdaptiveBeta.__init__` with the source's default parameters
(`beta_0=0.5, upper_threshold=0.15, lower_threshold=0.05,
reduction_factor=0.4, increase_factor=0.2, beta_min=0.1, beta_max=0.7`);
`current_beta` starts at `beta_0`. -/
def AdaptiveBeta.default : AdaptiveBeta :=
  ⟨1/2, 3/20, 1/20, 2/5, 1/5, 1/10, 7/10, 1/2⟩

/-- Method `AdaptiveBeta.__call__`: if `I > upper_threshold` multiply
`current_beta` by `(1 - reduction_factor)`, else if `I < lower_threshold`
multiply by `(1 + increase_factor)`; then clamp with
`np.clip(current_beta, beta_min, beta_max)`, store and return it.
Returns the mutated policy together with the returned rate. -/
def AdaptiveBeta.call (p : AdaptiveBeta) (_t I : ℚ) : AdaptiveBeta × ℚ :=
  let b :=
    if I > p.upper_threshold then p.current_beta * (1 - p.reduction_factor)
    else if I < p.lower_threshold then p.current_beta * (1 + p.increase_factor)
    else p.current_beta
  let b2 := npClip b p.beta_min p.beta_max
  ({ p with current_beta := b2 }, b2)

/-- Method `AdaptiveBeta.reset`: set `current_beta` back to `beta_0` (no clamp). -/
def AdaptiveBeta.reset (p : AdaptiveBeta) : AdaptiveBeta :=
  { p with current_beta := p.beta_0 }

/-- Summary statistics record from `compute_summary_statistics` in
`src/sir_model.py`. -/
structure Stats where
  peak_infection : ℚ
  peak_time : ℚ
  final_size : ℚ
  duration : ℚ
deriving DecidableEq, Repr

/-- Embeds `np.argmax`: first index of the maximum of a list, paired with the
maximum value (`none` on the empty list, where `np.argmax` raises). -/
def argmaxVal : List ℚ → Option (Nat × ℚ)
  | [] => none
  | x :: xs =>
    match argmaxVal xs with
    | none => some (0, x)
    | some (j, v) => if v > x then some (j + 1, v) else some (0, x)

/-- Embeds `np.where(l < thr)[0][0]`: index of the first element strictly below
`thr`, `none` if there is none. -/
def findBelow (thr : ℚ) : List ℚ → Option Nat
  | [] => none
  | x :: xs => if x < thr then some 0 else (findBelow thr xs).map (· + 1)

/-- Function `compute_summary_statistics(t, solution)` from `src/sir_model.py`:
peak infection and its (first) time, final size `R[-1]`, and duration
`t[peak_idx + first index in I[peak_idx:] below 0.001*peak] - t[0]`,
falling back to `t[-1] - t[0]` when no such index exists. -/
def compute_summary_statistics (t : List ℚ) (sol : List SIR) : Stats :=
  let I := sol.map SIR.I
  let R := sol.map SIR.R
  let pk := (argmaxVal I).getD (0, 0)
  let peak_idx := pk.1
  let peak_infection := pk.2
  let peak_time := t.getD peak_idx 0
  let final_size := R.getLastD 0
  let threshold := (1/1000) * peak_infection
  let duration :=
    match findBelow threshold (I.drop peak_idx) with
    | some k => t.getD (peak_idx + k) 0 - t.getD 0 0
    | none => t.getLastD 0 - t.getD 0 0
  ⟨peak_infection, peak_time, final_size, duration⟩

/-- Function `sir_derivatives` from `src/sir_model.py`: derivatives of the
SIR model at state `y` given the transmission rate `beta_t` (the source
obtains `beta_t` by calling `beta_func(t, I_for_beta)`; in this embedding
the caller evaluates the — possibly state-mutating — policy and passes the
resulting rate in). -/
def sir_derivatives (y : SIR) (beta_t gamma : ℚ) : SIR :=
  ⟨-beta_t * y.S * y.I, beta_t * y.S * y.I - gamma * y.I, gamma * y.I⟩

/-- Modelled from the spec: the body of `solve_sir` is missing from
`src/sir_model.py` (only its docstring is present).  Following spec §4.3,
the integrator samples the trajectory on the uniform step grid over
`[t0, t1]`, inclusive of both endpoints: `t0, t0+dt, …` with the final
sample clipped at `t1`. -/
def solveGrid (t0 t1 dt : ℚ) : List ℚ :=
  (List.range (⌈(t1 - t0) / dt⌉.toNat)).map (fun i : ℕ => t0 + (i : ℚ) * dt) ++ [t1]

/-- Stepper of the modelled `solve_sir`: explicit Euler over a given time
grid (one first-order step per grid interval, a stable method in the sense
of spec §4.3), threading the state `s` of the rate source `betaFn` — the
Python callable `beta_func`, called once per evaluation step with the time
and the instantaneous infection level — through the segment. -/
def odeGo {σ : Type} (betaFn : σ → ℚ → ℚ → σ × ℚ) (gamma : ℚ) :
    List ℚ → SIR → σ → List (ℚ × SIR) × σ
  | [], _, s => ([], s)
  | [τ], y, s => ([(τ, y)], s)
  | τ :: τ' :: rest, y, s =>
    let c := betaFn s τ y.I
    let d := sir_derivatives y c.2 gamma
    let h := τ' - τ
    let y' : SIR := ⟨y.S + h * d.S, y.I + h * d.I, y.R + h * d.R⟩
    let r := odeGo betaFn gamma (τ' :: rest) y' c.1
    ((τ, y) :: r.1, r.2)

/-- Modelled from the spec: `solve_sir(t_span, y0, beta_func, gamma, dt)`
(body missing from `src/sir_model.py`): integrate the SIR equations over
`[t0, t1]` from `y0`, returning the sampled trajectory and the final state
of the rate source. -/
def solve_sir {σ : Type} (t0 t1 : ℚ) (y0 : SIR) (betaFn : σ → ℚ → ℚ → σ × ℚ)
    (s0 : σ) (gamma dt : ℚ) : List (ℚ × SIR) × σ :=
  odeGo betaFn gamma (solveGrid t0 t1 dt) y0 s0

/-- Segment loop of `run_adaptive_scenario` from `src/simulation.py`
(`while current_t < t_end`), with explicit fuel for the while loop.  Each
iteration: `next_t = min(current_t + control_interval, t_end)`; freeze
`current_I`; solve the segment with the wrapper
`beta_wrapper(t, I) = beta_func(t, current_I)`; record the segment together
with `beta_func.current_beta` as read after the segment's solve; carry the
segment's last state forward.  Returns the list of segments (stitched
afterwards, see `stitchSegs`) and the final policy state; `none` when the
fuel is exhausted before `current_t` reaches `t_end`. -/
def adaptiveLoop (gamma ci dt t_end : ℚ) :
    Nat → ℚ → SIR → AdaptiveBeta → Option (List (List (ℚ × SIR) × ℚ) × AdaptiveBeta)
  | fuel, t, y, pol =>
    if t < t_end then
      match fuel with
      | 0 => none
      | Nat.succ fuel' =>
        let next_t := min (t + ci) t_end
        let current_I := y.I
        let r := solve_sir t next_t y (fun s τ _ => s.call τ current_I) pol gamma dt
        let y' := (r.1.getLastD (t, y)).2
        match adaptiveLoop gamma ci dt t_end fuel' next_t y' r.2 with
        | none => none
        | some (segs, polF) => some ((r.1, r.2.current_beta) :: segs, polF)
    else some ([], pol)

/-- Stitching from `run_adaptive_scenario`: extend the accumulated arrays
with each segment, skipping the segment's first sample whenever the
accumulator is non-empty (`if len(t_full) == 0` in the source) — that
sample duplicates the previous segment's last sample.  The recorded
`current_beta` of the segment is broadcast over the appended samples. -/
def stitchSegs (segs : List (List (ℚ × SIR) × ℚ)) : List (ℚ × SIR × ℚ) :=
  segs.foldl
    (fun acc sb =>
      acc ++ (if acc.isEmpty then sb.1 else sb.1.drop 1).map (fun p => (p.1, p.2, sb.2)))
    []

/-- Function `run_adaptive_scenario` from `src/simulation.py`: reset the
policy, run the segment loop, stitch.  The while loop runs with fuel
`⌈(t_end - t_start)/control_interval⌉`, which bounds the source loop's
iteration count whenever `control_interval > 0` (theorem C9), so on those
configurations the embedding computes exactly the source's trajectory; an
exhausted fuel (`none`) marks configurations on which the source's while
loop never terminates (e.g. `control_interval ≤ 0` with a non-trivial time
span).  The final policy state (the side effect on the shared policy
object) is returned alongside the trajectory. -/
def run_adaptive_scenario (t_span : ℚ × ℚ) (y0 : SIR) (pol : AdaptiveBeta)
    (gamma ci dt : ℚ) : Option (List (ℚ × SIR × ℚ) × AdaptiveBeta) :=
  match adaptiveLoop gamma ci dt t_span.2 (⌈(t_span.2 - t_span.1) / ci⌉.toNat)
      t_span.1 y0 pol.reset with
  | none => none
  | some (segs, polF) => some (stitchSegs segs, polF)

/-- Result dictionary `{t, S, I, R, beta, stats}` returned by the scenario
drivers in `src/simulation.py`. -/
structure RunResult where
  t : List ℚ
  S : List ℚ
  I : List ℚ
  R : List ℚ
  beta : List ℚ
  stats : Stats
deriving DecidableEq, Repr

/-- Duck-typed rate policy argument of the simulation drivers (the Python
code passes any of the three policy classes as `beta_func`). -/
inductive BetaPolicy where
  | staticP (p : StaticBeta)
  | nonstatP (p : NonStationaryBeta)
  | adaptiveP (p : AdaptiveBeta)
deriving DecidableEq, Repr

/-- Call `beta_func(t, I)` on a duck-typed policy: the static and scheduled
policies are pure, the adaptive one mutates its state. -/
def BetaPolicy.call : BetaPolicy → ℚ → ℚ → BetaPolicy × ℚ
  | .staticP p, t, I => (.staticP p, p.call t I)
  | .nonstatP p, t, I => (.nonstatP p, p.call t I)
  | .adaptiveP p, t, I =>
    let r := p.call t I
    (.adaptiveP r.1, r.2)

/-- Rate trace `[beta_func(ti, 0) for ti in t]` of the static and
non-stationary drivers, evaluated left to right with the policy state
threaded through (an adaptive policy would keep mutating here). -/
def betaTrace : BetaPolicy → List ℚ → List ℚ
  | _, [] => []
  | pol, ti :: rest =>
    let r := pol.call ti 0
    r.2 :: betaTrace r.1 rest

/-- Function `run_static_scenario` from `src/simulation.py`: one continuous
solve over the whole span, then the rate trace and the summary
statistics. -/
def run_static_scenario (t_span : ℚ × ℚ) (y0 : SIR) (pol : BetaPolicy)
    (gamma dt : ℚ) : RunResult :=
  let r := solve_sir t_span.1 t_span.2 y0 BetaPolicy.call pol gamma dt
  let t := r.1.map Prod.fst
  let sol := r.1.map Prod.snd
  ⟨t, sol.map SIR.S, sol.map SIR.I, sol.map SIR.R, betaTrace r.2 t,
    compute_summary_statistics t sol⟩

/-- Function `run_nonstationary_scenario` from `src/simulation.py`: the
same body as `run_static_scenario` (the source duplicates it). -/
def run_nonstationary_scenario (t_span : ℚ × ℚ) (y0 : SIR) (pol : BetaPolicy)
    (gamma dt : ℚ) : RunResult :=
  let r := solve_sir t_span.1 t_span.2 y0 BetaPolicy.call pol gamma dt
  let t := r.1.map Prod.fst
  let sol := r.1.map Prod.snd
  ⟨t, sol.map SIR.S, sol.map SIR.I, sol.map SIR.R, betaTrace r.2 t,
    compute_summary_statistics t sol⟩

/-- Conversion of the adaptive driver's stitched samples into the result
dictionary (columns plus summary statistics, as built at the end of
`run_adaptive_scenario`). -/
def adaptiveRunResult (r : List (ℚ × SIR × ℚ) × AdaptiveBeta) : RunResult :=
  let t := r.1.map (fun p => p.1)
  let sol := r.1.map (fun p => p.2.1)
  ⟨t, sol.map SIR.S, sol.map SIR.I, sol.map SIR.R, r.1.map (fun p => p.2.2),
    compute_summary_statistics t sol⟩

/-- Function `run_scenario` from `src/simulation.py`: dispatch on the
scenario-type string; the accepted kinds are exactly `static`,
`nonstationary` and `adaptive`; anything else raises
`ValueError(f"Unknown scenario type: {scenario_type}")`, modelled as
`Except.error`.  Passing a non-adaptive policy to the adaptive branch
would crash in Python on the missing `reset` attribute, modelled as an
error as well; the inner `Option` is the adaptive driver's fuel (see
`run_adaptive_scenario`). -/
def run_scenario (scenario_type : String) (t_span : ℚ × ℚ) (y0 : SIR)
    (pol : BetaPolicy) (gamma ci dt : ℚ) : Except String (Option RunResult) :=
  if scenario_type = "static" then
    .ok (some (run_static_scenario t_span y0 pol gamma dt))
  else if scenario_type = "nonstationary" then
    .ok (some (run_nonstationary_scenario t_span y0 pol gamma dt))
  else if scenario_type = "adaptive" then
    match pol with
    | .adaptiveP p => .ok ((run_adaptive_scenario t_span y0 p gamma ci dt).map adaptiveRunResult)
    | _ => .error "AttributeError: the adaptive driver needs an AdaptiveBeta policy"
  else .error ("Unknown scenario type: " ++ scenario_type)

/-- Tuple of the configured parameters of an adaptive policy (everything
except the mutable `current_beta`). -/
def AdaptiveBeta.config (p : AdaptiveBeta) : ℚ × ℚ × ℚ × ℚ × ℚ × ℚ × ℚ :=
  (p.beta_0, p.upper_threshold, p.lower_threshold, p.reduction_factor,
    p.increase_factor, p.beta_min, p.beta_max)

/-- Equality of all configured parameters of two adaptive policies
(everything except the mutable `current_beta`). -/
def AdaptiveBeta.sameConfig (p q : AdaptiveBeta) : Prop := p.config = q.config

/-- Invariant of the adaptive driver's segment list between position `t`
(with state `y`) and `t_end`: each segment starts exactly at the loop's
current sample, has strictly increasing times, ends at some `t' ≤ t_end`
strictly beyond its start, the following segments continue from that exact
sample, and the final position is `t_end` (the empty segment list occurs
exactly when the loop already stands at `t_end`). -/
def segsGood (t_end : ℚ) : ℚ → SIR → List (List (ℚ × SIR) × ℚ) → Prop
  | t, _, [] => t = t_end
  | t, y, sb :: rest =>
    sb.1.head? = some (t, y) ∧ List.Chain' (· < ·) (sb.1.map Prod.fst) ∧
    ∃ t' y', sb.1.getLast? = some (t', y') ∧ t < t' ∧ t' ≤ t_end ∧ segsGood t_end t' y' rest

/-- C2: For every call `rate(t, I)` on the Adaptive policy with current rate
`b`: if `I > upper_threshold` the new rate before clamping is
`b*(1 - reduction_factor)`; else if `I < lower_threshold` it is
`b*(1 + increase_factor)`; otherwise it is `b`; the stored and the returned
rate are that value clamped to `[rate_min, rate_max]`
(`min beta_max (max beta_min ·)`, as `np.clip` does). -/
theorem C2_adaptive_call_update (p : AdaptiveBeta) (t I : ℚ) :
    (p.call t I).2 =
      min p.beta_max (max p.beta_min
        (if I > p.upper_threshold then p.current_beta * (1 - p.reduction_factor)
         else if I < p.lower_threshold then p.current_beta * (1 + p.increase_factor)
         else p.current_beta)) ∧
    (p.call t I).1.current_beta = (p.call t I).2 := by
  constructor <;> rfl

/-- C3: the Scheduled policy's phase boundaries are half-open: for
`t < intervention_time` the rate is `beta_0`; at `t = intervention_time`
(when no rebound phase has started at or before it) the rate is already the
intervention value `beta_0 * (1 - intervention_reduction)`; concretely, with
`intervention_time = 50` and `intervention_reduction = 0.6` (defaults
otherwise), `rate(49.9, I) = beta_0` and `rate(50, I) = beta_0 * 0.4`
exactly, for every `I` and `beta_0`. -/
theorem C3_scheduled_half_open (p : NonStationaryBeta) (t I : ℚ)
    (beta_0 I' : ℚ) :
    (t < p.intervention_time → p.call t I = p.beta_0) ∧
    ((p.rebound_time = none ∨ ∃ rt, p.rebound_time = some rt ∧ p.intervention_time < rt) →
      p.call p.intervention_time I = p.beta_intervention) ∧
    (NonStationaryBeta.make beta_0 50 (6/10) none (1/2)).call (499/10) I' = beta_0 ∧
    (NonStationaryBeta.make beta_0 50 (6/10) none (1/2)).call 50 I' = beta_0 * (4/10) := by
  refine ⟨fun h => by simp [NonStationaryBeta.call, h], ?_, ?_, ?_⟩
  · rintro (h | ⟨rt, hrt, hlt⟩)
    · simp [NonStationaryBeta.call, h]
    · simp [NonStationaryBeta.call, hrt, hlt]
  · norm_num [NonStationaryBeta.call, NonStationaryBeta.make]
  · norm_num [NonStationaryBeta.call, NonStationaryBeta.make]

/-- Witness for C3 at a concrete input: the policy with
`beta_0 = 0.5, intervention_time = 50, intervention_reduction = 0.6`,
no rebound: `rate(0, 0) = 0.5`, `rate(50, 0)` is the intervention value,
`rate(49.9, 0) = 0.5` and `rate(50, 0) = 0.2`, with every hypothesis
discharged at the concrete input. -/
theorem C3_scheduled_half_open_witness :
    (NonStationaryBeta.make (1/2) 50 (6/10) none (1/2)).call 0 0 = 1/2 ∧
    (NonStationaryBeta.make (1/2) 50 (6/10) none (1/2)).call 50 0 =
      (NonStationaryBeta.make (1/2) 50 (6/10) none (1/2)).beta_intervention ∧
    (NonStationaryBeta.make (1/2) 50 (6/10) none (1/2)).call (499/10) 0 = 1/2 ∧
    (NonStationaryBeta.make (1/2) 50 (6/10) none (1/2)).call 50 0 = (1/2) * (4/10) :=
  ⟨(C3_scheduled_half_open (NonStationaryBeta.make (1/2) 50 (6/10) none (1/2))
      0 0 (1/2) 0).1 (by norm_num [NonStationaryBeta.make]),
   (C3_scheduled_half_open (NonStationaryBeta.make (1/2) 50 (6/10) none (1/2))
      0 0 (1/2) 0).2.1 (Or.inl rfl),
   (C3_scheduled_half_open (NonStationaryBeta.make (1/2) 50 (6/10) none (1/2))
      0 0 (1/2) 0).2.2.1,
   (C3_scheduled_half_open (NonStationaryBeta.make (1/2) 50 (6/10) none (1/2))
      0 0 (1/2) 0).2.2.2⟩

/-- C1 counter-evidence: two consecutive calls within the same control
interval, both with the frozen infection level `I = 0.2 > upper_threshold`,
on the default Adaptive policy: the first call returns `0.3`, the second
returns `0.18` and mutates `current_beta` again — `AdaptiveBeta.__call__`
mutates state on every evaluation, not only on the first call of the
interval.  Consequently, integrating a single control-interval segment
with the frozen level `I = 0.2` and two solver steps leaves the policy at
`current_beta = 0.18`, not at the `0.3` produced by the interval's first
evaluation: the per-interval mutation count follows the solver's
evaluation count. -/
theorem C1_second_call_mutates_again :
    (AdaptiveBeta.default.call 0 (1/5)).2 = 3/10 ∧
    ((AdaptiveBeta.default.call 0 (1/5)).1.call 0 (1/5)).2 = 9/50 ∧
    ((AdaptiveBeta.default.call 0 (1/5)).1.call 0 (1/5)).2 ≠
      (AdaptiveBeta.default.call 0 (1/5)).2 ∧
    ((AdaptiveBeta.default.call 0 (1/5)).1.call 0 (1/5)).1.current_beta ≠
      (AdaptiveBeta.default.call 0 (1/5)).1.current_beta ∧
    ((solve_sir 0 2 ⟨1/2, 1/5, 0⟩ (fun s τ _ => s.call τ (1/5)) AdaptiveBeta.default
      (1/10) 1).2).current_beta = 9/50 := by
  refine ⟨?_, ?_, ?_, ?_, ?_⟩
  · norm_num [AdaptiveBeta.call, AdaptiveBeta.default, npClip, min_def, max_def]
  · norm_num [AdaptiveBeta.call, AdaptiveBeta.default, npClip, min_def, max_def]
  · norm_num [AdaptiveBeta.call, AdaptiveBeta.default, npClip, min_def, max_def]
  · norm_num [AdaptiveBeta.call, AdaptiveBeta.default, npClip, min_def, max_def]
  · have hgrid : solveGrid 0 2 1 = [0, 1, 2] := by
      norm_num [solveGrid]
      rw [show Int.toNat 2 = 2 from rfl]
      simp [List.range_succ]
    show ((odeGo (fun s τ _ => AdaptiveBeta.call s τ (1/5)) (1/10) (solveGrid 0 2 1)
      ⟨1/2, 1/5, 0⟩ AdaptiveBeta.default).2).current_beta = 9/50
    rw [hgrid]
    norm_num [odeGo, AdaptiveBeta.call, AdaptiveBeta.default, npClip, sir_derivatives,
      min_def, max_def]

/-- C10: `reset` sets `current_beta` to exactly `beta_0` with no clamping:
whenever `beta_0` lies outside `[beta_min, beta_max]`, the rate stored right
after `reset` lies outside the configured bounds. -/
theorem C10_reset_unclamped (p : AdaptiveBeta)
    (h : p.beta_0 < p.beta_min ∨ p.beta_max < p.beta_0) :
    p.reset.current_beta = p.beta_0 ∧
    ¬ (p.beta_min ≤ p.reset.current_beta ∧ p.reset.current_beta ≤ p.beta_max) := by
  refine ⟨rfl, ?_⟩
  rcases h with h | h
  · exact fun hc => absurd hc.1 (by simpa [AdaptiveBeta.reset] using not_le.mpr h)
  · exact fun hc => absurd hc.2 (by simpa [AdaptiveBeta.reset] using not_le.mpr h)

/-- Witness for C10: a policy configured with `beta_0 = 1` but bounds
`[0.1, 0.7]`: after `reset`, `current_beta = 1`, outside the bounds. -/
theorem C10_reset_unclamped_witness :
    (⟨1, 3/20, 1/20, 2/5, 1/5, 1/10, 7/10, 1/2⟩ : AdaptiveBeta).reset.current_beta = 1 ∧
    ¬ ((⟨1, 3/20, 1/20, 2/5, 1/5, 1/10, 7/10, 1/2⟩ : AdaptiveBeta).beta_min ≤
        (⟨1, 3/20, 1/20, 2/5, 1/5, 1/10, 7/10, 1/2⟩ : AdaptiveBeta).reset.current_beta ∧
      (⟨1, 3/20, 1/20, 2/5, 1/5, 1/10, 7/10, 1/2⟩ : AdaptiveBeta).reset.current_beta ≤
        (⟨1, 3/20, 1/20, 2/5, 1/5, 1/10, 7/10, 1/2⟩ : AdaptiveBeta).beta_max) :=
  C10_reset_unclamped ⟨1, 3/20, 1/20, 2/5, 1/5, 1/10, 7/10, 1/2⟩ (by norm_num)

theorem argmaxVal_eq_none : ∀ {l : List ℚ}, argmaxVal l = none → l = [] := by
  intro l h
  cases l with
  | nil => rfl
  | cons x xs =>
    exfalso
    simp only [argmaxVal] at h
    rcases hm : argmaxVal xs with _ | ⟨j, v⟩ <;> simp [hm] at h
    by_cases hv : v > x <;> simp [hv] at h

theorem argmaxVal_spec : ∀ {l : List ℚ} {j : Nat} {v : ℚ}, argmaxVal l = some (j, v) →
    j < l.length ∧ l.getD j 0 = v ∧ (∀ i, i < l.length → l.getD i 0 ≤ v) ∧
      (∀ i, i < j → l.getD i 0 < v) := by
  intro l
  induction l with
  | nil => intro j v h; simp [argmaxVal] at h
  | cons x xs ih =>
    intro j v h
    simp only [argmaxVal] at h
    rcases hm : argmaxVal xs with _ | ⟨j', v'⟩
    · rw [hm] at h
      have hxs : xs = [] := argmaxVal_eq_none hm
      subst hxs
      simp only [Option.some.injEq, Prod.mk.injEq] at h
      obtain ⟨hj, hv⟩ := h
      subst hj
      subst hv
      refine ⟨by simp, by simp, ?_, fun i hi => by omega⟩
      intro i hi
      have hi0 : i = 0 := by simpa using hi
      subst hi0
      simp
    · rw [hm] at h
      obtain ⟨hj', hv', hle', hfirst'⟩ := ih hm
      by_cases hgt : v' > x
      · simp [hgt] at h
        obtain ⟨hj, hv⟩ := h
        subst hj hv
        refine ⟨by simpa using hj', by simpa using hv', ?_, ?_⟩
        · intro i hi
          cases i with
          | zero => simpa using le_of_lt hgt
          | succ i => exact hle' i (by simpa using hi)
        · intro i hi
          cases i with
          | zero => simpa using hgt
          | succ i => exact hfirst' i (by omega)
      · simp [hgt] at h
        obtain ⟨hj, hv⟩ := h
        subst hj hv
        push_neg at hgt
        refine ⟨by simp, by simp, ?_, ?_⟩
        · intro i hi
          cases i with
          | zero => simp
          | succ i => exact le_trans (hle' i (by simpa using hi)) hgt
        · intro i hi
          omega

theorem findBelow_some : ∀ {thr : ℚ} {l : List ℚ} {k : Nat}, findBelow thr l = some k →
    k < l.length ∧ l.getD k 0 < thr ∧ ∀ m, m < k → ¬ (l.getD m 0 < thr) := by
  intro thr l
  induction l with
  | nil => intro k h; simp [findBelow] at h
  | cons x xs ih =>
    intro k h
    simp only [findBelow] at h
    by_cases hx : x < thr
    · simp [hx] at h
      subst h
      exact ⟨by simp, by simpa using hx, fun m hm => by omega⟩
    · simp [hx] at h
      obtain ⟨k', hk', hkk⟩ := h
      subst hkk
      obtain ⟨h1, h2, h3⟩ := ih hk'
      refine ⟨by simpa using h1, by simpa using h2, ?_⟩
      intro m hm
      cases m with
      | zero => simpa using hx
      | succ m => exact h3 m (by omega)

theorem findBelow_eq_none : ∀ {thr : ℚ} {l : List ℚ}, findBelow thr l = none →
    ∀ m, m < l.length → ¬ (l.getD m 0 < thr) := by
  intro thr l
  induction l with
  | nil => intro _ m hm; simp at hm
  | cons x xs ih =>
    intro h m hm
    simp only [findBelow] at h
    by_cases hx : x < thr
    · simp [hx] at h
    · simp [hx] at h
      cases m with
      | zero => simpa using hx
      | succ m => exact ih h m (by simpa using hm)

theorem argmaxVal_isSome {l : List ℚ} (h : l ≠ []) : ∃ j v, argmaxVal l = some (j, v) := by
  cases l with
  | nil => exact absurd rfl h
  | cons x xs =>
    simp only [argmaxVal]
    rcases hm : argmaxVal xs with _ | ⟨j, v⟩
    · exact ⟨0, x, rfl⟩
    · by_cases hv : v > x
      · exact ⟨j + 1, v, by simp [hv]⟩
      · exact ⟨0, x, by simp [hv]⟩

theorem getD_drop (l : List ℚ) (n m : Nat) : (l.drop n).getD m 0 = l.getD (n + m) 0 := by
  show ((l.drop n).get? m).getD 0 = (l.get? (n + m)).getD 0
  rw [List.get?_drop]

theorem getLastD_map_R (sol : List SIR) (h : sol ≠ []) :
    (sol.map SIR.R).getLastD 0 = (sol.getLastD ⟨0, 0, 0⟩).R := by
  rw [List.getLastD_eq_getLast?, List.getLastD_eq_getLast?, List.getLast?_map]
  rcases hl : sol.getLast? with _ | y
  · exact absurd (List.getLast?_eq_none_iff.mp hl) h
  · rfl

theorem compute_summary_statistics_eq (t : List ℚ) (sol : List SIR) (j : Nat) (v : ℚ)
    (hm : argmaxVal (sol.map SIR.I) = some (j, v)) :
    compute_summary_statistics t sol =
      ⟨v, t.getD j 0, (sol.map SIR.R).getLastD 0,
        match findBelow ((1/1000) * v) ((sol.map SIR.I).drop j) with
        | some k => t.getD (j + k) 0 - t.getD 0 0
        | none => t.getLastD 0 - t.getD 0 0⟩ := by
  simp only [compute_summary_statistics, hm, Option.getD_some]

/-- C5: for every non-empty trajectory (`t` the sample times, `sol` the
states, of equal length), the computed summary statistics satisfy:
`peak_infection` is the maximum of the `I` column attained first at some
index `j` (strictly larger than all earlier values), `peak_time = t[j]`;
`final_size` is the `R` component of the last state; and `duration` is
`t[k] - t[0]` for the first index `k ≥ j` where `I[k] < 0.001 *
peak_infection`, or `t[-1] - t[0]` (the whole span) when the infection
level never drops below that threshold from the peak on.  (`t[0]` is
`t_start` and `t[-1]` is `t_end` of the run that produced the
trajectory.) -/
theorem C5_summary_statistics (t : List ℚ) (sol : List SIR)
    (hne : sol ≠ []) (_hlen : t.length = sol.length) :
    ∃ j, j < (sol.map SIR.I).length ∧
      (sol.map SIR.I).getD j 0 = (compute_summary_statistics t sol).peak_infection ∧
      (∀ i, i < (sol.map SIR.I).length →
        (sol.map SIR.I).getD i 0 ≤ (compute_summary_statistics t sol).peak_infection) ∧
      (∀ i, i < j →
        (sol.map SIR.I).getD i 0 < (compute_summary_statistics t sol).peak_infection) ∧
      (compute_summary_statistics t sol).peak_time = t.getD j 0 ∧
      (compute_summary_statistics t sol).final_size = (sol.getLastD ⟨0, 0, 0⟩).R ∧
      ((∃ k, j ≤ k ∧ k < (sol.map SIR.I).length ∧
          (sol.map SIR.I).getD k 0 <
            (1/1000) * (compute_summary_statistics t sol).peak_infection ∧
          (∀ m, j ≤ m → m < k →
            ¬ ((sol.map SIR.I).getD m 0 <
              (1/1000) * (compute_summary_statistics t sol).peak_infection)) ∧
          (compute_summary_statistics t sol).duration = t.getD k 0 - t.getD 0 0) ∨
        ((∀ m, j ≤ m → m < (sol.map SIR.I).length →
          ¬ ((sol.map SIR.I).getD m 0 <
            (1/1000) * (compute_summary_statistics t sol).peak_infection)) ∧
          (compute_summary_statistics t sol).duration = t.getLastD 0 - t.getD 0 0)) := by
  have hIne : sol.map SIR.I ≠ [] := by simpa using hne
  obtain ⟨j, v, hm⟩ := argmaxVal_isSome hIne
  obtain ⟨hjlen, hjv, hle, hfirst⟩ := argmaxVal_spec hm
  rw [compute_summary_statistics_eq t sol j v hm]
  refine ⟨j, hjlen, hjv, hle, hfirst, rfl, getLastD_map_R sol hne, ?_⟩
  rcases hf : findBelow ((1/1000) * v) ((sol.map SIR.I).drop j) with _ | k0
  · right
    refine ⟨?_, by simp [hf]⟩
    intro m hjm hmlen
    have := findBelow_eq_none hf (m - j) (by rw [List.length_drop]; omega)
    rw [getD_drop] at this
    have hrw : j + (m - j) = m := by omega
    rwa [hrw] at this
  · left
    obtain ⟨hk0, hkv, hkfirst⟩ := findBelow_some hf
    rw [List.length_drop] at hk0
    rw [getD_drop] at hkv
    refine ⟨j + k0, by omega, by omega, hkv, ?_, by simp [hf]⟩
    intro m hjm hmk
    have := hkfirst (m - j) (by omega)
    rw [getD_drop] at this
    have hrw : j + (m - j) = m := by omega
    rwa [hrw] at this

/-- Witness for C5 on the one-sample trajectory `t = [0]`,
`sol = [(0.9, 0.1, 0)]`. -/
theorem C5_summary_statistics_witness :
    ∃ j, j < (([⟨9/10, 1/10, 0⟩] : List SIR).map SIR.I).length ∧
      (([⟨9/10, 1/10, 0⟩] : List SIR).map SIR.I).getD j 0 =
        (compute_summary_statistics [0] [⟨9/10, 1/10, 0⟩]).peak_infection ∧
      (∀ i, i < (([⟨9/10, 1/10, 0⟩] : List SIR).map SIR.I).length →
        (([⟨9/10, 1/10, 0⟩] : List SIR).map SIR.I).getD i 0 ≤
          (compute_summary_statistics [0] [⟨9/10, 1/10, 0⟩]).peak_infection) ∧
      (∀ i, i < j →
        (([⟨9/10, 1/10, 0⟩] : List SIR).map SIR.I).getD i 0 <
          (compute_summary_statistics [0] [⟨9/10, 1/10, 0⟩]).peak_infection) ∧
      (compute_summary_statistics [0] [⟨9/10, 1/10, 0⟩]).peak_time = ([0] : List ℚ).getD j 0 ∧
      (compute_summary_statistics [0] [⟨9/10, 1/10, 0⟩]).final_size =
        (([⟨9/10, 1/10, 0⟩] : List SIR).getLastD ⟨0, 0, 0⟩).R ∧
      ((∃ k, j ≤ k ∧ k < (([⟨9/10, 1/10, 0⟩] : List SIR).map SIR.I).length ∧
          (([⟨9/10, 1/10, 0⟩] : List SIR).map SIR.I).getD k 0 <
            (1/1000) * (compute_summary_statistics [0] [⟨9/10, 1/10, 0⟩]).peak_infection ∧
          (∀ m, j ≤ m → m < k →
            ¬ ((([⟨9/10, 1/10, 0⟩] : List SIR).map SIR.I).getD m 0 <
              (1/1000) * (compute_summary_statistics [0] [⟨9/10, 1/10, 0⟩]).peak_infection)) ∧
          (compute_summary_statistics [0] [⟨9/10, 1/10, 0⟩]).duration =
            ([0] : List ℚ).getD k 0 - ([0] : List ℚ).getD 0 0) ∨
        ((∀ m, j ≤ m → m < (([⟨9/10, 1/10, 0⟩] : List SIR).map SIR.I).length →
          ¬ ((([⟨9/10, 1/10, 0⟩] : List SIR).map SIR.I).getD m 0 <
            (1/1000) * (compute_summary_statistics [0] [⟨9/10, 1/10, 0⟩]).peak_infection)) ∧
          (compute_summary_statistics [0] [⟨9/10, 1/10, 0⟩]).duration =
            ([0] : List ℚ).getLastD 0 - ([0] : List ℚ).getD 0 0)) :=
  C5_summary_statistics [0] [⟨9/10, 1/10, 0⟩] (by simp) (by simp)

theorem solveGrid_ne_nil (t0 t1 dt : ℚ) : solveGrid t0 t1 dt ≠ [] := by
  simp [solveGrid]

theorem solveGrid_getLast (t0 t1 dt : ℚ) : (solveGrid t0 t1 dt).getLast? = some t1 := by
  simp [solveGrid]

theorem solveGrid_pos_steps {t0 t1 dt : ℚ} (h : t0 < t1) (hdt : 0 < dt) :
    0 < (⌈(t1 - t0) / dt⌉).toNat := by
  have hx : 0 < (t1 - t0) / dt := div_pos (by linarith) hdt
  have := Int.ceil_pos.mpr hx
  omega

theorem solveGrid_head (t0 t1 dt : ℚ) (h : t0 < t1) (hdt : 0 < dt) :
    (solveGrid t0 t1 dt).head? = some t0 := by
  have hn := solveGrid_pos_steps h hdt
  obtain ⟨m, hm⟩ : ∃ m, (⌈(t1 - t0) / dt⌉).toNat = m + 1 :=
    ⟨(⌈(t1 - t0) / dt⌉).toNat - 1, by omega⟩
  simp [solveGrid, hm, List.range_succ_eq_map]

theorem solveGrid_chain (t0 t1 dt : ℚ) (h : t0 < t1) (hdt : 0 < dt) :
    List.Chain' (· < ·) (solveGrid t0 t1 dt) := by
  have hn := solveGrid_pos_steps h hdt
  obtain ⟨m, hm⟩ : ∃ m, (⌈(t1 - t0) / dt⌉).toNat = m + 1 :=
    ⟨(⌈(t1 - t0) / dt⌉).toNat - 1, by omega⟩
  rw [solveGrid, List.chain'_append]
  refine ⟨?_, List.chain'_singleton _, ?_⟩
  · rw [List.chain'_map, hm, List.chain'_range_succ]
    intro i _
    have hc : (i : ℚ) < ((i + 1 : ℕ) : ℚ) := by push_cast; linarith
    have := mul_lt_mul_of_pos_right hc hdt
    linarith
  · intro x hx y hy
    simp only [List.head?_cons, Option.mem_def, Option.some.injEq] at hy
    subst hy
    rw [hm, List.range_succ, List.map_append] at hx
    simp only [List.map_cons, List.map_nil, List.getLast?_concat, Option.mem_def,
      Option.some.injEq] at hx
    subst hx
    have hceil' : (0 : ℤ) < ⌈(t1 - t0) / dt⌉ := by
      exact_mod_cast Int.ceil_pos.mpr (div_pos (by linarith) hdt)
    have hmq : (m : ℚ) = ((⌈(t1 - t0) / dt⌉ : ℤ) : ℚ) - 1 := by
      have h1 : ((⌈(t1 - t0) / dt⌉).toNat : ℚ) = ((⌈(t1 - t0) / dt⌉ : ℤ) : ℚ) := by
        exact_mod_cast Int.toNat_of_nonneg hceil'.le
      rw [hm] at h1
      push_cast at h1
      linarith
    have hlt : (m : ℚ) < (t1 - t0) / dt := by
      have := Int.ceil_lt_add_one ((t1 - t0) / dt)
      have h2 : ((⌈(t1 - t0) / dt⌉ : ℤ) : ℚ) < (t1 - t0) / dt + 1 := by exact_mod_cast this
      linarith [hmq]
    have := mul_lt_mul_of_pos_right hlt hdt
    rw [div_mul_cancel₀ _ (ne_of_gt hdt)] at this
    linarith

theorem odeGo_map_fst {σ : Type} (f : σ → ℚ → ℚ → σ × ℚ) (g : ℚ) :
    ∀ (ts : List ℚ) (y : SIR) (s : σ), ((odeGo f g ts y s).1).map Prod.fst = ts := by
  intro ts
  induction ts with
  | nil => intro y s; rfl
  | cons τ rest ih =>
    intro y s
    cases rest with
    | nil => rfl
    | cons τ' rest' => simp [odeGo, ih]

theorem odeGo_head {σ : Type} (f : σ → ℚ → ℚ → σ × ℚ) (g : ℚ) (τ : ℚ) (rest : List ℚ)
    (y : SIR) (s : σ) : ((odeGo f g (τ :: rest) y s).1).head? = some (τ, y) := by
  cases rest <;> rfl

theorem odeGo_getLast {σ : Type} (f : σ → ℚ → ℚ → σ × ℚ) (g : ℚ) (ts : List ℚ)
    (hts : ts ≠ []) (y : SIR) (s : σ) (tl : ℚ) (hlast : ts.getLast? = some tl) :
    ∃ yl, ((odeGo f g ts y s).1).getLast? = some (tl, yl) := by
  have hmap := odeGo_map_fst f g ts y s
  rcases hl : ((odeGo f g ts y s).1).getLast? with _ | p
  · have hnil : (odeGo f g ts y s).1 = [] := List.getLast?_eq_none_iff.mp hl
    rw [hnil] at hmap
    exact absurd hmap.symm hts
  · refine ⟨p.2, ?_⟩
    have hml := List.getLast?_map Prod.fst (odeGo f g ts y s).1
    rw [hmap, hl, hlast] at hml
    obtain ⟨p1, p2⟩ := p
    simp only [Option.map_some', Option.some.injEq] at hml
    simp [hml]

theorem solve_sir_map_fst {σ : Type} (t0 t1 : ℚ) (y0 : SIR) (f : σ → ℚ → ℚ → σ × ℚ)
    (s0 : σ) (g dt : ℚ) :
    ((solve_sir t0 t1 y0 f s0 g dt).1).map Prod.fst = solveGrid t0 t1 dt :=
  odeGo_map_fst f g (solveGrid t0 t1 dt) y0 s0

theorem solve_sir_ne_nil {σ : Type} (t0 t1 : ℚ) (y0 : SIR) (f : σ → ℚ → ℚ → σ × ℚ)
    (s0 : σ) (g dt : ℚ) : (solve_sir t0 t1 y0 f s0 g dt).1 ≠ [] := by
  intro hnil
  have := solve_sir_map_fst t0 t1 y0 f s0 g dt
  rw [hnil] at this
  exact solveGrid_ne_nil t0 t1 dt this.symm

theorem solve_sir_head {σ : Type} (t0 t1 : ℚ) (y0 : SIR) (f : σ → ℚ → ℚ → σ × ℚ)
    (s0 : σ) (g dt : ℚ) (h : t0 < t1) (hdt : 0 < dt) :
    ((solve_sir t0 t1 y0 f s0 g dt).1).head? = some (t0, y0) := by
  have hg := solveGrid_head t0 t1 dt h hdt
  rcases hgrid : solveGrid t0 t1 dt with _ | ⟨τ, rest⟩
  · exact absurd hgrid (solveGrid_ne_nil t0 t1 dt)
  · rw [hgrid] at hg
    simp only [List.head?_cons, Option.some.injEq] at hg
    show ((odeGo f g (solveGrid t0 t1 dt) y0 s0).1).head? = _
    rw [hgrid, odeGo_head f g τ rest y0 s0, hg]

theorem solve_sir_getLast {σ : Type} (t0 t1 : ℚ) (y0 : SIR) (f : σ → ℚ → ℚ → σ × ℚ)
    (s0 : σ) (g dt : ℚ) :
    ∃ yl, ((solve_sir t0 t1 y0 f s0 g dt).1).getLast? = some (t1, yl) :=
  odeGo_getLast f g (solveGrid t0 t1 dt) (solveGrid_ne_nil t0 t1 dt) y0 s0 t1
    (solveGrid_getLast t0 t1 dt)

theorem solve_sir_chain {σ : Type} (t0 t1 : ℚ) (y0 : SIR) (f : σ → ℚ → ℚ → σ × ℚ)
    (s0 : σ) (g dt : ℚ) (h : t0 < t1) (hdt : 0 < dt) :
    List.Chain' (· < ·) (((solve_sir t0 t1 y0 f s0 g dt).1).map Prod.fst) := by
  rw [solve_sir_map_fst]
  exact solveGrid_chain t0 t1 dt h hdt

theorem adaptiveLoop_spec (gamma ci dt t_end : ℚ) (hci : 0 < ci) (hdt : 0 < dt) :
    ∀ (fuel : Nat) (t : ℚ) (y : SIR) (pol : AdaptiveBeta), t ≤ t_end →
      t_end - t ≤ (fuel : ℚ) * ci →
      ∃ segs polF, adaptiveLoop gamma ci dt t_end fuel t y pol = some (segs, polF) ∧
        segsGood t_end t y segs := by
  intro fuel
  induction fuel with
  | zero =>
    intro t y pol hle hfuel
    have ht : t = t_end := by
      push_cast at hfuel
      linarith
    subst ht
    exact ⟨[], pol, by simp [adaptiveLoop], by simp [segsGood]⟩
  | succ fuel ih =>
    intro t y pol hle hfuel
    by_cases hlt : t < t_end
    · have htn : t < min (t + ci) t_end := lt_min (by linarith) hlt
      have hnt_le : min (t + ci) t_end ≤ t_end := min_le_right _ _
      obtain ⟨yl, hseglast⟩ := solve_sir_getLast t (min (t + ci) t_end) y
        (fun s τ _ => AdaptiveBeta.call s τ y.I) pol gamma dt
      have hgetD : (solve_sir t (min (t + ci) t_end) y
          (fun s τ _ => AdaptiveBeta.call s τ y.I) pol gamma dt).1.getLastD (t, y) =
          (min (t + ci) t_end, yl) := by
        rw [List.getLastD_eq_getLast?, hseglast]
        rfl
      have hfuel' : t_end - min (t + ci) t_end ≤ (fuel : ℚ) * ci := by
        rcases le_or_lt (t + ci) t_end with hc | hc
        · rw [min_eq_left hc]
          push_cast at hfuel
          linarith
        · rw [min_eq_right (le_of_lt hc)]
          have : (0 : ℚ) ≤ (fuel : ℚ) * ci := by positivity
          linarith
      obtain ⟨segs', polF, hrec, hgood⟩ :=
        ih (min (t + ci) t_end) yl
          (solve_sir t (min (t + ci) t_end) y
            (fun s τ _ => AdaptiveBeta.call s τ y.I) pol gamma dt).2 hnt_le hfuel'
      refine ⟨((solve_sir t (min (t + ci) t_end) y
          (fun s τ _ => AdaptiveBeta.call s τ y.I) pol gamma dt).1,
          (solve_sir t (min (t + ci) t_end) y
            (fun s τ _ => AdaptiveBeta.call s τ y.I) pol gamma dt).2.current_beta) :: segs',
        polF, ?_, ?_⟩
      · show (if t < t_end then _ else _) = _
        rw [if_pos hlt]
        simp only [hgetD, hrec]
      · refine ⟨solve_sir_head t (min (t + ci) t_end) y _ pol gamma dt htn hdt,
          solve_sir_chain t (min (t + ci) t_end) y _ pol gamma dt htn hdt,
          min (t + ci) t_end, yl, hseglast, htn, hnt_le, hgood⟩
    · have ht : t = t_end := le_antisymm hle (le_of_not_lt hlt)
      subst ht
      exact ⟨[], pol, by simp [adaptiveLoop], by simp [segsGood]⟩

theorem stitchSegs_foldl (rest : List (List (ℚ × SIR) × ℚ)) :
    ∀ acc : List (ℚ × SIR × ℚ), acc ≠ [] →
      rest.foldl (fun acc sb =>
          acc ++ (if acc.isEmpty then sb.1 else sb.1.drop 1).map
            (fun p => (p.1, p.2, sb.2))) acc =
        acc ++ rest.flatMap (fun sb => (sb.1.drop 1).map (fun p => (p.1, p.2, sb.2))) := by
  induction rest with
  | nil => intro acc _; simp
  | cons sb rest ih =>
    intro acc h
    rw [List.foldl_cons]
    have hne : acc.isEmpty = false := by simpa using h
    simp only [hne, Bool.false_eq_true, if_false]
    rw [ih (acc ++ (sb.1.drop 1).map (fun p => (p.1, p.2, sb.2)))
      (by simp [h])]
    simp [List.append_assoc]

theorem stitchSegs_cons (sb : List (ℚ × SIR) × ℚ) (rest : List (List (ℚ × SIR) × ℚ))
    (h : sb.1 ≠ []) :
    stitchSegs (sb :: rest) =
      sb.1.map (fun p => (p.1, p.2, sb.2)) ++
        rest.flatMap (fun x => (x.1.drop 1).map (fun p => (p.1, p.2, x.2))) := by
  show List.foldl _ _ _ = _
  rw [List.foldl_cons]
  have h0 : (([] : List (ℚ × SIR × ℚ)).isEmpty) = true := rfl
  simp only [h0, if_true, List.nil_append]
  exact stitchSegs_foldl rest (sb.1.map (fun p => (p.1, p.2, sb.2))) (by simpa using h)

theorem map_fst_of_broadcast (seg : List (ℚ × SIR)) (b : ℚ) :
    (seg.map (fun p => (p.1, p.2, b))).map Prod.fst = seg.map Prod.fst := by
  simp [List.map_map]

theorem stitchSegs_cons_cons (sb sb' : List (ℚ × SIR) × ℚ)
    (rest' : List (List (ℚ × SIR) × ℚ)) (h1 : sb.1 ≠ []) (h2 : sb'.1 ≠ []) :
    (stitchSegs (sb :: sb' :: rest')).map Prod.fst =
      sb.1.map Prod.fst ++ ((stitchSegs (sb' :: rest')).map Prod.fst).drop 1 := by
  rw [stitchSegs_cons _ _ h1, stitchSegs_cons _ _ h2]
  rcases hsb' : sb'.1 with _ | ⟨x, xs⟩
  · exact absurd hsb' h2
  · simp [hsb', List.map_map]

theorem chain'_rel_head {α : Type} {R : α → α → Prop} :
    ∀ {l : List α} {a b : α},
      List.Chain' R l → l.head? = some a → l.tail.head? = some b → R a b := by
  intro l a b hc ha hb
  cases l with
  | nil => simp at ha
  | cons x xs =>
    cases xs with
    | nil => simp at hb
    | cons z zs =>
      simp only [List.head?_cons, Option.some.injEq] at ha
      simp only [List.tail_cons, List.head?_cons, Option.some.injEq] at hb
      subst ha
      subst hb
      exact (List.chain'_cons.mp hc).1

theorem getLast?_drop_one {α : Type} :
    ∀ {l : List α}, l.drop 1 ≠ [] → (l.drop 1).getLast? = l.getLast? := by
  intro l h
  cases l with
  | nil => simp at h
  | cons x xs =>
    simp only [List.drop_succ_cons, List.drop_zero] at h ⊢
    cases xs with
    | nil => exact absurd rfl h
    | cons z zs => rfl

theorem segsGood_stitch (t_end : ℚ) :
    ∀ (segs : List (List (ℚ × SIR) × ℚ)) (t : ℚ) (y : SIR),
      segsGood t_end t y segs → segs ≠ [] →
      List.Chain' (· < ·) ((stitchSegs segs).map Prod.fst) ∧
      ((stitchSegs segs).map Prod.fst).head? = some t ∧
      ((stitchSegs segs).map Prod.fst).getLast? = some t_end := by
  intro segs
  induction segs with
  | nil => intro t y _ hne; exact absurd rfl hne
  | cons sb rest ih =>
    intro t y hg _
    obtain ⟨hhead, hchain, t', y', hlast, htt', ht'le, hrest⟩ := hg
    have hsb_ne : sb.1 ≠ [] := by
      intro hnil; rw [hnil] at hhead; simp at hhead
    have hfst_head : (sb.1.map Prod.fst).head? = some t := by
      rw [List.head?_map, hhead]; rfl
    have hfst_last : (sb.1.map Prod.fst).getLast? = some t' := by
      rw [List.getLast?_map, hlast]; rfl
    have hfst_ne : sb.1.map Prod.fst ≠ [] := by simpa using hsb_ne
    cases rest with
    | nil =>
      have ht' : t' = t_end := hrest
      rw [stitchSegs_cons _ _ hsb_ne]
      simp only [List.flatMap_nil, List.append_nil]
      rw [map_fst_of_broadcast]
      exact ⟨hchain, hfst_head, ht' ▸ hfst_last⟩
    | cons sb' rest' =>
      have hrest_ne : (sb' :: rest') ≠ ([] : List (List (ℚ × SIR) × ℚ)) := by simp
      obtain ⟨ihc, ihh, ihl⟩ := ih t' y' hrest hrest_ne
      have hsb'_ne : sb'.1 ≠ [] := by
        obtain ⟨hhead', _⟩ := hrest
        intro hnil; rw [hnil] at hhead'; simp at hhead'
      rw [stitchSegs_cons_cons sb sb' rest' hsb_ne hsb'_ne]
      set T := (stitchSegs (sb' :: rest')).map Prod.fst with hT
      refine ⟨?_, ?_, ?_⟩
      · rw [List.chain'_append]
        refine ⟨hchain, ?_, ?_⟩
        · rw [List.drop_one]
          exact ihc.tail
        · intro x hx z hz
          rw [hfst_last] at hx
          simp only [Option.mem_def, Option.some.injEq] at hx
          subst hx
          rw [List.drop_one] at hz
          simp only [Option.mem_def] at hz
          exact chain'_rel_head ihc ihh hz
      · rw [List.head?_append_of_ne_nil _ hfst_ne]
        exact hfst_head
      · rcases hdrop : T.drop 1 with _ | ⟨w, ws⟩
        · rw [List.append_nil, hfst_last]
          have ht'e : t' = t_end := by
            cases hTc : T with
            | nil => rw [hTc] at ihh; simp at ihh
            | cons a as =>
              rw [hTc] at hdrop ihh ihl
              simp only [List.drop_succ_cons, List.drop_zero] at hdrop
              subst hdrop
              simp only [List.head?_cons, Option.some.injEq] at ihh
              simp only [List.getLast?_singleton, Option.some.injEq] at ihl
              rw [← ihh, ihl]
          rw [ht'e]
        · have hne2 : T.drop 1 ≠ [] := by rw [hdrop]; simp
          rw [List.getLast?_append_of_ne_nil _ (by simp : (w :: ws : List ℚ) ≠ [])]
          rw [← hdrop, getLast?_drop_one hne2]
          exact ihl

theorem adaptiveLoop_done (gamma ci dt t_end : ℚ) (fuel : Nat) (t : ℚ) (y : SIR)
    (pol : AdaptiveBeta) (hlt : ¬ t < t_end) :
    adaptiveLoop gamma ci dt t_end fuel t y pol = some ([], pol) := by
  cases fuel with
  | zero =>
    show (if t < t_end then _ else _) = _
    rw [if_neg hlt]
  | succ fuel =>
    show (if t < t_end then _ else _) = _
    rw [if_neg hlt]

theorem adaptiveLoop_zero_of_lt (gamma ci dt t_end : ℚ) (t : ℚ) (y : SIR)
    (pol : AdaptiveBeta) (hlt : t < t_end) :
    adaptiveLoop gamma ci dt t_end 0 t y pol = none := by
  show (if t < t_end then _ else _) = _
  rw [if_pos hlt]

theorem adaptiveLoop_succ_eq (gamma ci dt t_end : ℚ) (fuel : Nat) (t : ℚ) (y : SIR)
    (pol : AdaptiveBeta) (hlt : t < t_end) :
    adaptiveLoop gamma ci dt t_end (fuel + 1) t y pol =
      match adaptiveLoop gamma ci dt t_end fuel (min (t + ci) t_end)
          ((solve_sir t (min (t + ci) t_end) y
            (fun s τ _ => AdaptiveBeta.call s τ y.I) pol gamma dt).1.getLastD (t, y)).2
          (solve_sir t (min (t + ci) t_end) y
            (fun s τ _ => AdaptiveBeta.call s τ y.I) pol gamma dt).2 with
      | none => none
      | some (segs, polF) =>
        some (((solve_sir t (min (t + ci) t_end) y
            (fun s τ _ => AdaptiveBeta.call s τ y.I) pol gamma dt).1,
          (solve_sir t (min (t + ci) t_end) y
            (fun s τ _ => AdaptiveBeta.call s τ y.I) pol gamma dt).2.current_beta) :: segs,
          polF) := by
  show (if t < t_end then _ else _) = _
  rw [if_pos hlt]

theorem odeGo_config (g I0 : ℚ) :
    ∀ (ts : List ℚ) (y : SIR) (s : AdaptiveBeta),
      ((odeGo (fun s' τ _ => AdaptiveBeta.call s' τ I0) g ts y s).2).config = s.config := by
  intro ts
  induction ts with
  | nil => intro y s; rfl
  | cons τ rest ih =>
    intro y s
    cases rest with
    | nil => rfl
    | cons τ' rest' => exact ih _ _

theorem adaptiveLoop_config (gamma ci dt t_end : ℚ) :
    ∀ (fuel : Nat) (t : ℚ) (y : SIR) (pol : AdaptiveBeta)
      (segs : List (List (ℚ × SIR) × ℚ)) (polF : AdaptiveBeta),
      adaptiveLoop gamma ci dt t_end fuel t y pol = some (segs, polF) →
      polF.config = pol.config := by
  intro fuel
  induction fuel with
  | zero =>
    intro t y pol segs polF h
    by_cases hlt : t < t_end
    · rw [adaptiveLoop_zero_of_lt gamma ci dt t_end t y pol hlt] at h
      exact absurd h (by simp)
    · rw [adaptiveLoop_done gamma ci dt t_end 0 t y pol hlt] at h
      simp only [Option.some.injEq, Prod.mk.injEq] at h
      rw [h.2]
  | succ fuel ih =>
    intro t y pol segs polF h
    by_cases hlt : t < t_end
    · rw [adaptiveLoop_succ_eq gamma ci dt t_end fuel t y pol hlt] at h
      split at h
      · exact absurd h (by simp)
      · rename_i segs' polF' hrec
        simp only [Option.some.injEq, Prod.mk.injEq] at h
        obtain ⟨_, hpolF⟩ := h
        subst hpolF
        have h1 := ih _ _ _ _ _ hrec
        have h2 : ((solve_sir t (min (t + ci) t_end) y
            (fun s τ _ => AdaptiveBeta.call s τ y.I) pol gamma dt).2).config = pol.config :=
          odeGo_config gamma y.I (solveGrid t (min (t + ci) t_end) dt) y pol
        exact h1.trans h2
    · rw [adaptiveLoop_done gamma ci dt t_end _ t y pol hlt] at h
      simp only [Option.some.injEq, Prod.mk.injEq] at h
      rw [h.2]

theorem reset_eq_of_config {p q : AdaptiveBeta} (h : p.config = q.config) :
    p.reset = q.reset := by
  obtain ⟨b0, ut, lt1, rf1, if1, bmn, bmx, cb⟩ := p
  obtain ⟨b0', ut', lt2, rf2, if2, bmn', bmx', cb'⟩ := q
  simp only [AdaptiveBeta.config, Prod.mk.injEq] at h
  obtain ⟨h1, h2, h3, h4, h5, h6, h7⟩ := h
  simp [AdaptiveBeta.reset, h1, h2, h3, h4, h5, h6, h7]

theorem ceil_fuel_bound (a ci : ℚ) (hci : 0 < ci) (ha : 0 ≤ a) :
    a ≤ ((⌈a / ci⌉.toNat : ℚ)) * ci := by
  rcases eq_or_lt_of_le ha with h0 | hpos
  · have : (0 : ℚ) ≤ ((⌈a / ci⌉.toNat : ℚ)) * ci := by positivity
    linarith
  · have hu : 0 < a / ci := div_pos hpos hci
    have hcp : (0 : ℤ) < ⌈a / ci⌉ := Int.ceil_pos.mpr hu
    have htn : ((⌈a / ci⌉.toNat : ℚ)) = ((⌈a / ci⌉ : ℤ) : ℚ) := by
      exact_mod_cast Int.toNat_of_nonneg hcp.le
    have hle : a / ci ≤ ((⌈a / ci⌉ : ℤ) : ℚ) := by exact_mod_cast Int.le_ceil (a / ci)
    have h2 := mul_le_mul_of_nonneg_right hle hci.le
    rw [div_mul_cancel₀ _ (ne_of_gt hci)] at h2
    rw [htn]
    exact h2

theorem segsGood_continuity (t_end : ℚ) :
    ∀ (segs : List (List (ℚ × SIR) × ℚ)) (t : ℚ) (y : SIR),
      segsGood t_end t y segs →
      List.Chain'
        (fun sb sb' => ∃ q : ℚ × SIR, sb.1.getLast? = some q ∧ sb'.1.head? = some q)
        segs := by
  intro segs
  induction segs with
  | nil => intro t y _; simp
  | cons sb rest ih =>
    intro t y hg
    obtain ⟨hhead, hchain, t', y', hlast, _, _, hrest⟩ := hg
    cases rest with
    | nil => simp
    | cons sb' rest' =>
      rw [List.chain'_cons]
      exact ⟨⟨(t', y'), hlast, hrest.1⟩, ih t' y' hrest⟩

/-- C4: for every adaptive run over `(t_start, t_end)` with `t_start <
t_end`, positive control interval and positive step size, the driver
succeeds; consecutive segments of its segment loop share exactly their
boundary sample (the state at the end of segment k is the state at the
start of segment k+1); and the stitched trajectory has strictly increasing
times (no duplicated, no missing samples) whose first time is `t_start`
and whose last time is `t_end` (exactly — rational arithmetic needs no
floating tolerance). -/
theorem C4_stitching (t_start t_end : ℚ) (y0 : SIR) (pol : AdaptiveBeta)
    (gamma ci dt : ℚ) (hspan : t_start < t_end) (hci : 0 < ci) (hdt : 0 < dt) :
    ∃ segs polF,
      adaptiveLoop gamma ci dt t_end ((⌈(t_end - t_start) / ci⌉).toNat) t_start y0
        pol.reset = some (segs, polF) ∧
      run_adaptive_scenario (t_start, t_end) y0 pol gamma ci dt =
        some (stitchSegs segs, polF) ∧
      List.Chain'
        (fun sb sb' => ∃ q : ℚ × SIR, sb.1.getLast? = some q ∧ sb'.1.head? = some q)
        segs ∧
      List.Chain' (· < ·) ((stitchSegs segs).map Prod.fst) ∧
      ((stitchSegs segs).map Prod.fst).head? = some t_start ∧
      ((stitchSegs segs).map Prod.fst).getLast? = some t_end := by
  have hb := ceil_fuel_bound (t_end - t_start) ci hci (by linarith)
  obtain ⟨segs, polF, hloop, hgood⟩ :=
    adaptiveLoop_spec gamma ci dt t_end hci hdt ((⌈(t_end - t_start) / ci⌉).toNat)
      t_start y0 pol.reset (le_of_lt hspan) hb
  have hne : segs ≠ [] := by
    intro h
    rw [h] at hgood
    have hte : t_start = t_end := hgood
    exact absurd hte (ne_of_lt hspan)
  obtain ⟨hchain, hh, hl⟩ := segsGood_stitch t_end segs t_start y0 hgood hne
  refine ⟨segs, polF, hloop, ?_, segsGood_continuity t_end segs t_start y0 hgood,
    hchain, hh, hl⟩
  show (match adaptiveLoop gamma ci dt t_end ((⌈(t_end - t_start) / ci⌉).toNat)
      t_start y0 pol.reset with
    | none => none
    | some (segs, polF) => some (stitchSegs segs, polF)) = _
  rw [hloop]

/-- Witness for C4 at the concrete configuration `t_span = (0, 10)`,
`y0 = (0.99, 0.01, 0)`, default adaptive policy, `gamma = 0.1`,
`control_interval = 5`, `dt = 5`. -/
theorem C4_stitching_witness :
    ∃ segs polF,
      adaptiveLoop (1/10) 5 5 10 ((⌈((10 : ℚ) - 0) / 5⌉).toNat) 0 ⟨99/100, 1/100, 0⟩
        AdaptiveBeta.default.reset = some (segs, polF) ∧
      run_adaptive_scenario ((0 : ℚ), 10) ⟨99/100, 1/100, 0⟩ AdaptiveBeta.default
        (1/10) 5 5 = some (stitchSegs segs, polF) ∧
      List.Chain'
        (fun sb sb' => ∃ q : ℚ × SIR, sb.1.getLast? = some q ∧ sb'.1.head? = some q)
        segs ∧
      List.Chain' (· < ·) ((stitchSegs segs).map Prod.fst) ∧
      ((stitchSegs segs).map Prod.fst).head? = some 0 ∧
      ((stitchSegs segs).map Prod.fst).getLast? = some 10 :=
  C4_stitching 0 10 ⟨99/100, 1/100, 0⟩ AdaptiveBeta.default (1/10) 5 5
    (by norm_num) (by norm_num) (by norm_num)

/-- C9: for every time span with `t_start ≤ t_end` and every
`control_interval > 0` (with positive step size), the adaptive driver's
segment loop terminates within `⌈(t_end - t_start)/control_interval⌉`
iterations: the fuel-indexed embedding of the `while` loop — one unit of
fuel per iteration — returns a result when given exactly that much fuel,
and consequently `run_adaptive_scenario` (which runs with that fuel)
executes to completion. -/
theorem C9_termination (t_start t_end : ℚ) (y0 : SIR) (pol : AdaptiveBeta)
    (gamma ci dt : ℚ) (hspan : t_start ≤ t_end) (hci : 0 < ci) (hdt : 0 < dt) :
    (adaptiveLoop gamma ci dt t_end ((⌈(t_end - t_start) / ci⌉).toNat) t_start y0
      pol.reset).isSome = true ∧
    (run_adaptive_scenario (t_start, t_end) y0 pol gamma ci dt).isSome = true := by
  have hb := ceil_fuel_bound (t_end - t_start) ci hci (by linarith)
  obtain ⟨segs, polF, hloop, _⟩ :=
    adaptiveLoop_spec gamma ci dt t_end hci hdt ((⌈(t_end - t_start) / ci⌉).toNat)
      t_start y0 pol.reset hspan hb
  constructor
  · rw [hloop]
    rfl
  · show (match adaptiveLoop gamma ci dt t_end ((⌈(t_end - t_start) / ci⌉).toNat)
        t_start y0 pol.reset with
      | none => none
      | some (segs, polF) => some (stitchSegs segs, polF)).isSome = true
    rw [hloop]
    rfl

/-- Witness for C9 at `t_span = (0, 10)`, `ci = 3`, `dt = 1`. -/
theorem C9_termination_witness :
    (adaptiveLoop (1/10) 3 1 10 ((⌈((10 : ℚ) - 0) / 3⌉).toNat) 0 ⟨99/100, 1/100, 0⟩
      AdaptiveBeta.default.reset).isSome = true ∧
    (run_adaptive_scenario ((0 : ℚ), 10) ⟨99/100, 1/100, 0⟩ AdaptiveBeta.default
      (1/10) 3 1).isSome = true :=
  C9_termination 0 10 ⟨99/100, 1/100, 0⟩ AdaptiveBeta.default (1/10) 3 1
    (by norm_num) (by norm_num) (by norm_num)

/-- C7 (amended): the simulation code performs no configuration
validation.  In particular an initial state whose components do not sum to
1 is not rejected: for every such state (and any gamma), with a
non-degenerate span and positive control interval and step, the adaptive
run completes normally and returns a non-empty trajectory instead of
failing fast.  (A non-positive control interval, by contrast, makes the
source's `while` loop run forever — the fuelled embedding returns `none`
— rather than raising a descriptive error.) -/
theorem C7_no_validation (t_start t_end : ℚ) (y0 : SIR) (pol : AdaptiveBeta)
    (gamma ci dt : ℚ) (hspan : t_start < t_end) (hci : 0 < ci) (hdt : 0 < dt)
    (hsum : y0.S + y0.I + y0.R ≠ 1) :
    ∃ tr polF,
      run_adaptive_scenario (t_start, t_end) y0 pol gamma ci dt = some (tr, polF) ∧
      tr ≠ [] := by
  have hb := ceil_fuel_bound (t_end - t_start) ci hci (by linarith)
  obtain ⟨segs, polF, hloop, hgood⟩ :=
    adaptiveLoop_spec gamma ci dt t_end hci hdt ((⌈(t_end - t_start) / ci⌉).toNat)
      t_start y0 pol.reset (le_of_lt hspan) hb
  have hne : segs ≠ [] := by
    intro h
    rw [h] at hgood
    have hte : t_start = t_end := hgood
    exact absurd hte (ne_of_lt hspan)
  obtain ⟨_, hh, _⟩ := segsGood_stitch t_end segs t_start y0 hgood hne
  refine ⟨stitchSegs segs, polF, ?_, ?_⟩
  · show (match adaptiveLoop gamma ci dt t_end ((⌈(t_end - t_start) / ci⌉).toNat)
        t_start y0 pol.reset with
      | none => none
      | some (segs, polF) => some (stitchSegs segs, polF)) = _
    rw [hloop]
  · intro hnil
    rw [hnil] at hh
    simp at hh

/-- Witness for C7 (amended) at the invalid initial state `(0.5, 0.5,
0.5)` (sum `1.5 ≠ 1`). -/
theorem C7_no_validation_witness :
    ∃ tr polF,
      run_adaptive_scenario ((0 : ℚ), 10) ⟨1/2, 1/2, 1/2⟩ AdaptiveBeta.default
        (1/10) 5 5 = some (tr, polF) ∧ tr ≠ [] :=
  C7_no_validation 0 10 ⟨1/2, 1/2, 1/2⟩ AdaptiveBeta.default (1/10) 5 5
    (by norm_num) (by norm_num) (by norm_num) (by norm_num)

/-- C7 counterexample: with the invalid initial state `(0.5, 0.5, 0.5)`
(components sum to 1.5, not ~1), the adaptive run does not fail with a
descriptive error before integration: it returns a trajectory (a `some`
result whose sample list is non-empty), contradicting the claim that no
partial trajectory is returned on an invalid configuration. -/
theorem C7_counterexample :
    ((1/2 : ℚ) + 1/2 + 1/2 ≠ 1) ∧
    ((run_adaptive_scenario ((0 : ℚ), 10) ⟨1/2, 1/2, 1/2⟩ AdaptiveBeta.default
      (1/10) 5 5).map (fun r => r.1.isEmpty)) = some false := by
  refine ⟨by norm_num, ?_⟩
  have hb := ceil_fuel_bound ((10 : ℚ) - 0) 5 (by norm_num) (by norm_num)
  obtain ⟨segs, polF, hloop, hgood⟩ :=
    adaptiveLoop_spec (1/10) 5 5 10 (by norm_num) (by norm_num)
      ((⌈((10 : ℚ) - 0) / 5⌉).toNat) 0 ⟨1/2, 1/2, 1/2⟩ AdaptiveBeta.default.reset
      (by norm_num) hb
  have hne : segs ≠ [] := by
    intro h
    rw [h] at hgood
    have : (0 : ℚ) = 10 := hgood
    norm_num at this
  obtain ⟨_, hh, _⟩ := segsGood_stitch 10 segs 0 ⟨1/2, 1/2, 1/2⟩ hgood hne
  have hrun : run_adaptive_scenario ((0 : ℚ), 10) ⟨1/2, 1/2, 1/2⟩ AdaptiveBeta.default
      (1/10) 5 5 = some (stitchSegs segs, polF) := by
    show (match adaptiveLoop (1/10) 5 5 10 ((⌈((10 : ℚ) - 0) / 5⌉).toNat) 0
        ⟨1/2, 1/2, 1/2⟩ AdaptiveBeta.default.reset with
      | none => none
      | some (segs, polF) => some (stitchSegs segs, polF)) = _
    rw [hloop]
  rw [hrun]
  have hsne : stitchSegs segs ≠ [] := by
    intro hnil
    rw [hnil] at hh
    simp at hh
  simp [hsne]

/-- C6 (amended): `run_scenario` accepts exactly the kind strings
`static`, `nonstationary` and `adaptive`, dispatching each to the
corresponding driver; any other kind — including the spec's name
`scheduled` for the time-triggered scenario — fails with
`ValueError("Unknown scenario type: <kind>")`. -/
theorem C6_dispatch (t_span : ℚ × ℚ) (y0 : SIR) (pol : BetaPolicy)
    (gamma ci dt : ℚ) (p : AdaptiveBeta) (kind : String)
    (h1 : kind ≠ "static") (h2 : kind ≠ "nonstationary") (h3 : kind ≠ "adaptive") :
    run_scenario "static" t_span y0 pol gamma ci dt =
      .ok (some (run_static_scenario t_span y0 pol gamma dt)) ∧
    run_scenario "nonstationary" t_span y0 pol gamma ci dt =
      .ok (some (run_nonstationary_scenario t_span y0 pol gamma dt)) ∧
    run_scenario "adaptive" t_span y0 (BetaPolicy.adaptiveP p) gamma ci dt =
      .ok ((run_adaptive_scenario t_span y0 p gamma ci dt).map adaptiveRunResult) ∧
    run_scenario kind t_span y0 pol gamma ci dt =
      .error ("Unknown scenario type: " ++ kind) := by
  refine ⟨rfl, rfl, rfl, ?_⟩
  simp only [run_scenario, if_neg h1, if_neg h2, if_neg h3]

/-- Witness for C6 (amended): the unknown kind `scheduled` on a concrete
configuration. -/
theorem C6_dispatch_witness :
    run_scenario "static" ((0 : ℚ), 1) ⟨1, 0, 0⟩ (BetaPolicy.staticP ⟨1/2⟩)
        (1/10) 5 1 =
      .ok (some (run_static_scenario ((0 : ℚ), 1) ⟨1, 0, 0⟩
        (BetaPolicy.staticP ⟨1/2⟩) (1/10) 1)) ∧
    run_scenario "nonstationary" ((0 : ℚ), 1) ⟨1, 0, 0⟩ (BetaPolicy.staticP ⟨1/2⟩)
        (1/10) 5 1 =
      .ok (some (run_nonstationary_scenario ((0 : ℚ), 1) ⟨1, 0, 0⟩
        (BetaPolicy.staticP ⟨1/2⟩) (1/10) 1)) ∧
    run_scenario "adaptive" ((0 : ℚ), 1) ⟨1, 0, 0⟩
        (BetaPolicy.adaptiveP AdaptiveBeta.default) (1/10) 5 1 =
      .ok ((run_adaptive_scenario ((0 : ℚ), 1) ⟨1, 0, 0⟩ AdaptiveBeta.default
        (1/10) 5 1).map adaptiveRunResult) ∧
    run_scenario "scheduled" ((0 : ℚ), 1) ⟨1, 0, 0⟩ (BetaPolicy.staticP ⟨1/2⟩)
        (1/10) 5 1 =
      .error ("Unknown scenario type: " ++ "scheduled") :=
  C6_dispatch ((0 : ℚ), 1) ⟨1, 0, 0⟩ (BetaPolicy.staticP ⟨1/2⟩) (1/10) 5 1
    AdaptiveBeta.default "scheduled" (by decide) (by decide) (by decide)

/-- C6 counterexample: the claim names `scheduled` among the accepted
kinds, but the code's accepted string for the time-scheduled scenario is
`nonstationary`: dispatching on `scheduled` raises
`ValueError("Unknown scenario type: scheduled")` instead of running the
scheduled driver. -/
theorem C6_counterexample :
    run_scenario "scheduled" ((0 : ℚ), 1) ⟨1, 0, 0⟩ (BetaPolicy.staticP ⟨1/2⟩)
      (1/10) 5 1 = Except.error "Unknown scenario type: scheduled" := by
  rfl

/-- C8: the adaptive driver resets the policy's `current_rate` to its
configured baseline before each run, so the run's output is independent of
the `current_beta` the policy object carries on entry: two policies with
identical configured parameters yield identical results, and in
particular, re-running the scenario with the policy object exactly as a
previous run left it reproduces that run's trajectory (and final policy
state) identically — no stale policy state carries across runs. -/
theorem C8_reset_determinism (t_span : ℚ × ℚ) (y0 : SIR) (gamma ci dt : ℚ)
    (p q : AdaptiveBeta) (hpq : p.sameConfig q) :
    run_adaptive_scenario t_span y0 p gamma ci dt =
      run_adaptive_scenario t_span y0 q gamma ci dt ∧
    ∀ tr p1, run_adaptive_scenario t_span y0 p gamma ci dt = some (tr, p1) →
      run_adaptive_scenario t_span y0 p1 gamma ci dt = some (tr, p1) := by
  have hrun_eq : ∀ r s : AdaptiveBeta, r.reset = s.reset →
      run_adaptive_scenario t_span y0 r gamma ci dt =
        run_adaptive_scenario t_span y0 s gamma ci dt := by
    intro r s hrs
    show (match adaptiveLoop gamma ci dt t_span.2 ((⌈(t_span.2 - t_span.1) / ci⌉).toNat)
        t_span.1 y0 r.reset with
      | none => none
      | some (segs, polF) => some (stitchSegs segs, polF)) = _
    rw [hrs]
    rfl
  refine ⟨hrun_eq p q (reset_eq_of_config hpq), ?_⟩
  intro tr p1 h
  have hp1 : p1.config = p.config := by
    revert h
    show (match adaptiveLoop gamma ci dt t_span.2 ((⌈(t_span.2 - t_span.1) / ci⌉).toNat)
        t_span.1 y0 p.reset with
      | none => none
      | some (segs, polF) => some (stitchSegs segs, polF)) = some (tr, p1) →
      p1.config = p.config
    rcases hloop : adaptiveLoop gamma ci dt t_span.2
        ((⌈(t_span.2 - t_span.1) / ci⌉).toNat) t_span.1 y0 p.reset with _ | ⟨segs, polF⟩
    · intro hcontra
      exact absurd hcontra (by simp)
    · intro hsome
      simp only [Option.some.injEq, Prod.mk.injEq] at hsome
      have hcfg := adaptiveLoop_config gamma ci dt t_span.2 _ _ _ _ _ _ hloop
      calc p1.config = polF.config := by rw [hsome.2]
        _ = (p.reset).config := hcfg
        _ = p.config := rfl
  rw [hrun_eq p1 p (reset_eq_of_config hp1)]
  exact h

/-- Witness for C8: a policy entering the run with a stale
`current_beta = 123` produces exactly the same output as the freshly
constructed default policy. -/
theorem C8_reset_determinism_witness :
    run_adaptive_scenario ((0 : ℚ), 5) ⟨99/100, 1/100, 0⟩
        ⟨1/2, 3/20, 1/20, 2/5, 1/5, 1/10, 7/10, 123⟩ (1/10) 5 5 =
      run_adaptive_scenario ((0 : ℚ), 5) ⟨99/100, 1/100, 0⟩ AdaptiveBeta.default
        (1/10) 5 5 :=
  (C8_reset_determinism ((0 : ℚ), 5) ⟨99/100, 1/100, 0⟩ (1/10) 5 5
    ⟨1/2, 3/20, 1/20, 2/5, 1/5, 1/10, 7/10, 123⟩ AdaptiveBeta.default rfl).1
